import Mathlib

/-!
Verification of the decoder capability resolution and fallback-chain
reconciliation subsystem of the camera application.

Shallow embedding notes.
The Rust sources embedded here are `src/media/decoders/definitions.rs`
(decoder catalogs, element formatting, resolver) and
`src/app/insights/types.rs` (availability cache, chain inspector).
The external GStreamer element registry
(`gstreamer::ElementFactory::find(name).is_some()`) is modelled as an
explicit pure function `has_element : String → Bool`, as the spec treats
it: idempotent and side-effect-free. The `OnceLock` caches are modelled
by explicit state passing (`Option (List Bool)`), and operations that
touch the registry also report how many registry queries they perform,
so that caching behaviour is observable in the model. Rust string
containment and suffix tests are modelled on character lists; a valid
UTF-8 substring match always falls on character boundaries, so byte-level
and character-level containment agree.
-/

namespace Camera

/-- Decoder definition with all metadata needed for pipeline construction
and display. Mirrors `DecoderDef` in `src/media/decoders/definitions.rs`. -/
structure DecoderDef where
  name : String
  description : String
  props : Option String
  is_hardware : Bool
  deriving DecidableEq, Repr

/-- Constructor for a software decoder without properties
(`DecoderDef::sw`). -/
def DecoderDef.sw (name description : String) : DecoderDef :=
  { name := name, description := description, props := none, is_hardware := false }

/-- Constructor for a software decoder with properties
(`DecoderDef::sw_props`). -/
def DecoderDef.sw_props (name description props : String) : DecoderDef :=
  { name := name, description := description, props := some props, is_hardware := false }

/-- Constructor for a hardware decoder (`DecoderDef::hw`). -/
def DecoderDef.hw (name description : String) : DecoderDef :=
  { name := name, description := description, props := none, is_hardware := true }

/-- Format as GStreamer element string (`DecoderDef::as_gst_element`):
`format!("{} {}", name, p)` when properties are present, the name alone
otherwise. -/
def DecoderDef.as_gst_element (d : DecoderDef) : String :=
  match d.props with
  | some p => d.name ++ " " ++ p
  | none => d.name

/-- MJPEG decoders in preference order (`MJPEG_DECODERS`): software
decoders first for reliability, hardware decoders as fallback. -/
def MJPEG_DECODERS : List DecoderDef :=
  [DecoderDef.sw_props "jpegdec" "GStreamer JPEG (Software)" "max-errors=-1",
   DecoderDef.sw "avdec_mjpeg" "FFmpeg MJPEG (Software)",
   DecoderDef.hw "vaapijpegdec" "VA-API JPEG (Intel/AMD HW)",
   DecoderDef.hw "nvjpegdec" "NVIDIA JPEG (NVDEC)",
   DecoderDef.hw "v4l2jpegdec" "V4L2 JPEG (Hardware)"]

/-- H.264 decoders in preference order (`H264_DECODERS`): hardware
decoders first for performance, software decoders as fallback. -/
def H264_DECODERS : List DecoderDef :=
  [DecoderDef.hw "vah264dec" "VA-API H.264 (Modern HW)",
   DecoderDef.hw "vaapih264dec" "VA-API H.264 (Legacy HW)",
   DecoderDef.hw "nvh264dec" "NVIDIA H.264 (NVDEC)",
   DecoderDef.hw "d3d11h264dec" "Direct3D 11 H.264 (HW)",
   DecoderDef.hw "v4l2h264dec" "V4L2 H.264 (Hardware)",
   DecoderDef.sw_props "avdec_h264" "FFmpeg H.264 (SW, multi-threaded)" "max-threads=0",
   DecoderDef.sw "openh264dec" "OpenH264 (SW, single-threaded)"]

/-- H.265/HEVC decoders in preference order (`H265_DECODERS`): hardware
decoders first for performance, one software fallback. -/
def H265_DECODERS : List DecoderDef :=
  [DecoderDef.hw "vah265dec" "VA-API H.265 (Modern HW)",
   DecoderDef.hw "vaapih265dec" "VA-API H.265 (Legacy HW)",
   DecoderDef.hw "nvh265dec" "NVIDIA H.265 (NVDEC)",
   DecoderDef.hw "d3d11h265dec" "Direct3D 11 H.265 (HW)",
   DecoderDef.hw "v4l2h265dec" "V4L2 H.265 (Hardware)",
   DecoderDef.sw_props "avdec_h265" "FFmpeg H.265 (SW, multi-threaded)" "max-threads=0"]

/-- The three codec catalogs of the repository, as listed in the spec. -/
def catalogs : List (List DecoderDef) := [MJPEG_DECODERS, H264_DECODERS, H265_DECODERS]

/-- Find the first available decoder from a list
(`find_available_decoder` in `definitions.rs`): scans the catalog in
order, returns the formatted element string of the first entry present
in the registry, and the string `decodebin` when none is. -/
def find_available_decoder (has_element : String → Bool) (decoders : List DecoderDef) :
    String :=
  match decoders.find? (fun d => has_element d.name) with
  | some d => d.as_gst_element
  | none => "decodebin"

/-- Number of registry queries one call of `find_available_decoder`
performs: the Rust loop calls `gstreamer::ElementFactory::find` once per
scanned entry, stopping at the first hit. -/
def find_available_decoder_queries (has_element : String → Bool) :
    List DecoderDef → Nat
  | [] => 0
  | d :: rest =>
      if has_element d.name then 1 else 1 + find_available_decoder_queries has_element rest

/-- Rust `str::contains` on valid UTF-8, modelled as character-list
infix. -/
def contains_substr (s pat : String) : Bool :=
  decide (pat.data <:+: s.data)

/-- Rust `str::ends_with`, modelled as character-list suffix. -/
def ends_with (s pat : String) : Bool :=
  decide (pat.data <:+ s.data)

/-- State of a decoder in the fallback chain (`FallbackState` in
`src/app/insights/types.rs`). The Rust default variant is
`Unavailable`. -/
inductive FallbackState where
  | Selected
  | Available
  | Unavailable
  deriving DecidableEq, Repr

instance : Inhabited FallbackState := ⟨FallbackState.Unavailable⟩

/-- Status of a decoder in the fallback chain (`DecoderStatus`). -/
structure DecoderStatus where
  name : String
  description : String
  state : FallbackState
  deriving DecidableEq, Repr

instance : Inhabited DecoderStatus := ⟨{ name := "", description := "", state := default }⟩

/-- The predicate `build_chain_from_defs` tests on each catalog entry
against the pipeline string: name followed by a space, name followed by
an exclamation character, or name at the end of the string. -/
def decoder_in_pipeline (pipeline : String) (d : DecoderDef) : Bool :=
  contains_substr pipeline (d.name ++ " ") || contains_substr pipeline (d.name ++ "!") ||
    ends_with pipeline d.name

/-- The `active_decoder` computation at the top of
`build_chain_from_defs`: with a pipeline string supplied, the name of
the first catalog entry matching `decoder_in_pipeline`; `none`
otherwise. -/
def active_decoder (decoders : List DecoderDef) (full_pipeline : Option String) :
    Option String :=
  full_pipeline.bind fun pipeline =>
    (decoders.find? (decoder_in_pipeline pipeline)).map fun d => d.name

/-- Build a decoder status chain from decoder definitions
(`build_chain_from_defs`): each catalog entry, in order, is `Selected`
when its name equals the active decoder name, else `Available` when its
index-aligned availability flag (guarded lookup defaulting to `false`)
is set, else `Unavailable`. -/
def build_chain_from_defs (decoders : List DecoderDef) (availability : List Bool)
    (full_pipeline : Option String) : List DecoderStatus :=
  let active := active_decoder decoders full_pipeline
  decoders.enum.map fun p =>
    { name := p.2.name
      description := p.2.description
      state :=
        if active = some p.2.name then FallbackState.Selected
        else if availability.getD p.1 false then FallbackState.Available
        else FallbackState.Unavailable }

/-- The availability vector for a catalog: one registry presence bit per
entry, in catalog order. This is the value the `OnceLock` cache holds
once populated. -/
def availability_of (decoders : List DecoderDef) (has_element : String → Bool) : List Bool :=
  decoders.map fun d => has_element d.name

/-- `get_cached_availability` with the `OnceLock` modelled as explicit
state: given the current cache content, return the availability vector,
the updated cache content, and the number of registry queries this call
performed (`get_or_init` queries once per catalog entry on first
population, zero afterwards). -/
def get_cached_availability (decoders : List DecoderDef) (has_element : String → Bool)
    (cache : Option (List Bool)) : List Bool × Option (List Bool) × Nat :=
  match cache with
  | some v => (v, some v, 0)
  | none =>
      let v := availability_of decoders has_element
      (v, some v, decoders.length)

/-- Build the decoder fallback chain based on pixel format
(`InsightsState::build_decoder_chain`). The availability argument of
`build_chain_from_defs` is the cached vector; with the registry
modelled as a pure function, the populated cache holds exactly
`availability_of catalog has_element` (proved below), so the chain is
expressed directly with that vector. -/
def build_decoder_chain (has_element : String → Bool)
    (pixel_format full_pipeline : Option String) : List DecoderStatus :=
  match pixel_format with
  | some "MJPG" | some "MJPEG" =>
      build_chain_from_defs MJPEG_DECODERS (availability_of MJPEG_DECODERS has_element)
        full_pipeline
  | some "H264" =>
      build_chain_from_defs H264_DECODERS (availability_of H264_DECODERS has_element)
        full_pipeline
  | some "H265" | some "HEVC" =>
      build_chain_from_defs H265_DECODERS (availability_of H265_DECODERS has_element)
        full_pipeline
  | _ => []

/-- Spec-side wording (§4.4 Step 2): the name occurs in the descriptor
immediately followed by a space, immediately followed by an exclamation
character, or at the very end of the descriptor. -/
def occurs_delimited (pipeline name : String) : Prop :=
  (name ++ " ").data <:+: pipeline.data ∨ (name ++ "!").data <:+: pipeline.data ∨
    name.data <:+ pipeline.data

instance (pipeline name : String) : Decidable (occurs_delimited pipeline name) := by
  unfold occurs_delimited; infer_instance

/-- Spec-side wording (§4.4 Step 2): entry `i` is the first catalog
entry, in catalog order, whose name occurs delimited in the
descriptor. -/
def first_match (c : List DecoderDef) (p : String) (i : Nat) : Prop :=
  ∃ hi : i < c.length, occurs_delimited p (c.get ⟨i, hi⟩).name ∧
    ∀ j, ∀ hj : j < i, ¬ occurs_delimited p (c.get ⟨j, hj.trans hi⟩).name

/-- Spec-side wording of C5: select the first catalog entry whose flag
in the availability vector is true and format it; `decodebin` when no
flag is true. -/
def select_by_flags (c : List DecoderDef) (v : List Bool) : String :=
  match (c.zip v).find? (fun p => p.2) with
  | some p => p.1.as_gst_element
  | none => "decodebin"

/-! Helper lemmas shared by the claim theorems. -/

/-- No entry of any of the three catalogs formats to the fallback
sentinel string. -/
theorem catalogs_no_decodebin :
    ∀ c ∈ catalogs, ∀ d ∈ c, d.as_gst_element ≠ "decodebin" := by decide

/-- Within each catalog the entry names are pairwise distinct. -/
theorem catalogs_names_nodup :
    ∀ c ∈ catalogs, (c.map DecoderDef.name).Nodup := by decide

/-- Mapping a function of the entry over an enumerated list forgets the
indices. -/
theorem enum_map_snd_comp {α β : Type} (l : List α) (f : α → β) :
    l.enum.map (fun p => f p.2) = l.map f := by
  have h := congrArg (List.map f) (List.enum_map_snd l)
  rw [List.map_map] at h
  exact h

/-- The chain builder reproduces each catalog entry's name and
description, in catalog order. -/
theorem chain_projection (c : List DecoderDef) (availability : List Bool)
    (full_pipeline : Option String) :
    (build_chain_from_defs c availability full_pipeline).map
        (fun s => (s.name, s.description)) =
      c.map fun d => (d.name, d.description) := by
  simp only [build_chain_from_defs, List.map_map]
  exact enum_map_snd_comp c fun d => (d.name, d.description)

/-- The chain builder returns one status per catalog entry. -/
theorem chain_length (c : List DecoderDef) (availability : List Bool)
    (full_pipeline : Option String) :
    (build_chain_from_defs c availability full_pipeline).length = c.length := by
  simp [build_chain_from_defs, List.enum_length]

/-- A pixel format other than the five recognized aliases yields the
empty chain. -/
theorem build_decoder_chain_unrecognized (has_element : String → Bool)
    (full_pipeline : Option String) (pf : Option String)
    (h : pf ∉ ([some "MJPG", some "MJPEG", some "H264", some "H265", some "HEVC"] :
      List (Option String))) :
    build_decoder_chain has_element pf full_pipeline = [] := by
  simp only [List.mem_cons, List.not_mem_nil, or_false, not_or] at h
  rcases pf with _ | s
  · rfl
  · unfold build_decoder_chain
    split <;> simp_all

/-- C7: each of the three catalogs is non-empty; catalog contents and
order are fixed by construction (they are constant definitions); in the
MJPEG catalog every software entry precedes every hardware entry, and in
the H.264 and H.265 catalogs every hardware entry precedes every
software entry. -/
theorem catalogs_nonempty_and_ordered :
    MJPEG_DECODERS ≠ [] ∧ H264_DECODERS ≠ [] ∧ H265_DECODERS ≠ [] ∧
    (MJPEG_DECODERS.map DecoderDef.is_hardware).Pairwise (fun a b => a ≤ b) ∧
    (H264_DECODERS.map DecoderDef.is_hardware).Pairwise (fun a b => b ≤ a) ∧
    (H265_DECODERS.map DecoderDef.is_hardware).Pairwise (fun a b => b ≤ a) := by
  decide

/-- C8: formatting a decoder definition yields the name, a single space
and the property string when a property string is present, and the name
alone when it is absent. -/
theorem as_gst_element_format (d : DecoderDef) :
    (∀ p, d.props = some p → d.as_gst_element = d.name ++ " " ++ p) ∧
    (d.props = none → d.as_gst_element = d.name) := by
  constructor
  · intro p hp
    simp [DecoderDef.as_gst_element, hp]
  · intro hp
    simp [DecoderDef.as_gst_element, hp]

/-- Witness for C8 at the first MJPEG entry (with properties) and the
second (without). -/
theorem as_gst_element_format_witness :
    (DecoderDef.sw_props "jpegdec" "GStreamer JPEG (Software)"
        "max-errors=-1").as_gst_element = "jpegdec" ++ " " ++ "max-errors=-1" ∧
    (DecoderDef.sw "avdec_mjpeg" "FFmpeg MJPEG (Software)").as_gst_element =
      "avdec_mjpeg" :=
  ⟨(as_gst_element_format _).1 "max-errors=-1" rfl, (as_gst_element_format _).2 rfl⟩

/-- C3: the pixel format is mapped case-sensitively onto the catalogs:
MJPG and MJPEG select the MJPEG catalog, H264 the H.264 catalog, H265
and HEVC the H.265 catalog, and every other value (absent formats
included) yields the empty list, regardless of the pipeline
descriptor. -/
theorem build_decoder_chain_format_mapping (has_element : String → Bool)
    (full_pipeline : Option String) :
    (∀ fmt ∈ (["MJPG", "MJPEG"] : List String),
      build_decoder_chain has_element (some fmt) full_pipeline =
        build_chain_from_defs MJPEG_DECODERS (availability_of MJPEG_DECODERS has_element)
          full_pipeline) ∧
    (build_decoder_chain has_element (some "H264") full_pipeline =
      build_chain_from_defs H264_DECODERS (availability_of H264_DECODERS has_element)
        full_pipeline) ∧
    (∀ fmt ∈ (["H265", "HEVC"] : List String),
      build_decoder_chain has_element (some fmt) full_pipeline =
        build_chain_from_defs H265_DECODERS (availability_of H265_DECODERS has_element)
          full_pipeline) ∧
    (∀ pf : Option String,
      pf ∉ ([some "MJPG", some "MJPEG", some "H264", some "H265", some "HEVC"] :
        List (Option String)) →
      build_decoder_chain has_element pf full_pipeline = []) := by
  refine ⟨?_, rfl, ?_, build_decoder_chain_unrecognized has_element full_pipeline⟩
  · intro fmt hfmt
    simp only [List.mem_cons, List.not_mem_nil, or_false] at hfmt
    rcases hfmt with rfl | rfl <;> rfl
  · intro fmt hfmt
    simp only [List.mem_cons, List.not_mem_nil, or_false] at hfmt
    rcases hfmt with rfl | rfl <;> rfl

/-- Witness for C3: the MJPG alias selects the MJPEG catalog, and an
unrecognized raw format yields the empty chain. -/
theorem build_decoder_chain_format_mapping_witness :
    build_decoder_chain (fun _ => true) (some "MJPG") none =
      build_chain_from_defs MJPEG_DECODERS
        (availability_of MJPEG_DECODERS (fun _ => true)) none ∧
    build_decoder_chain (fun _ => true) (some "YUYV") none = [] :=
  ⟨(build_decoder_chain_format_mapping (fun _ => true) none).1 "MJPG" (by decide),
    (build_decoder_chain_format_mapping (fun _ => true) none).2.2.2 (some "YUYV")
      (by decide)⟩

/-- C4: for each recognized pixel format the returned chain has exactly
one entry per catalog entry, carrying the catalog entry's name and
description in catalog order; for unrecognized or absent formats the
chain is empty. -/
theorem build_decoder_chain_length_names (has_element : String → Bool)
    (full_pipeline : Option String) :
    (∀ fmt ∈ (["MJPG", "MJPEG"] : List String),
      (build_decoder_chain has_element (some fmt) full_pipeline).length =
        MJPEG_DECODERS.length ∧
      (build_decoder_chain has_element (some fmt) full_pipeline).map
          (fun s => (s.name, s.description)) =
        MJPEG_DECODERS.map fun d => (d.name, d.description)) ∧
    ((build_decoder_chain has_element (some "H264") full_pipeline).length =
        H264_DECODERS.length ∧
      (build_decoder_chain has_element (some "H264") full_pipeline).map
          (fun s => (s.name, s.description)) =
        H264_DECODERS.map fun d => (d.name, d.description)) ∧
    (∀ fmt ∈ (["H265", "HEVC"] : List String),
      (build_decoder_chain has_element (some fmt) full_pipeline).length =
        H265_DECODERS.length ∧
      (build_decoder_chain has_element (some fmt) full_pipeline).map
          (fun s => (s.name, s.description)) =
        H265_DECODERS.map fun d => (d.name, d.description)) ∧
    (∀ pf : Option String,
      pf ∉ ([some "MJPG", some "MJPEG", some "H264", some "H265", some "HEVC"] :
        List (Option String)) →
      (build_decoder_chain has_element pf full_pipeline).length = 0) := by
  refine ⟨?_, ⟨chain_length .., chain_projection ..⟩, ?_, ?_⟩
  · intro fmt hfmt
    simp only [List.mem_cons, List.not_mem_nil, or_false] at hfmt
    rcases hfmt with rfl | rfl <;> exact ⟨chain_length .., chain_projection ..⟩
  · intro fmt hfmt
    simp only [List.mem_cons, List.not_mem_nil, or_false] at hfmt
    rcases hfmt with rfl | rfl <;> exact ⟨chain_length .., chain_projection ..⟩
  · intro pf h
    rw [build_decoder_chain_unrecognized has_element full_pipeline pf h]
    rfl

/-- A list search hits the entry at the first index satisfying the
predicate. -/
theorem find?_eq_some_of_first {α : Type} (q : α → Bool) :
    ∀ (l : List α) (i : Nat) (hi : i < l.length),
      q (l.get ⟨i, hi⟩) = true →
      (∀ j, ∀ hj : j < i, q (l.get ⟨j, hj.trans hi⟩) = false) →
      l.find? q = some (l.get ⟨i, hi⟩)
  | a :: t, 0, _, hq, _ => List.find?_cons_of_pos t hq
  | a :: t, i + 1, hi, hq, hmin => by
      have ha : q a = false := hmin 0 (Nat.succ_pos i)
      rw [List.find?_cons_of_neg t (by simp [ha])]
      exact find?_eq_some_of_first q t i (Nat.lt_of_succ_lt_succ hi) hq
        fun j hj => hmin (j + 1) (Nat.succ_lt_succ hj)

/-- Conversely, a successful list search yields the entry at the first
index satisfying the predicate. -/
theorem first_of_find?_eq_some {α : Type} (q : α → Bool) :
    ∀ (l : List α) (a : α), l.find? q = some a →
      ∃ i, ∃ hi : i < l.length, l.get ⟨i, hi⟩ = a ∧ q a = true ∧
        ∀ j, ∀ hj : j < i, q (l.get ⟨j, hj.trans hi⟩) = false
  | b :: t, a, h => by
      by_cases hb : q b = true
      · rw [List.find?_cons_of_pos t hb] at h
        obtain rfl : b = a := by injection h
        exact ⟨0, Nat.succ_pos t.length, rfl, hb,
          fun j hj => absurd hj (Nat.not_lt_zero j)⟩
      · rw [List.find?_cons_of_neg t hb] at h
        obtain ⟨i, hi, hget, hq, hmin⟩ := first_of_find?_eq_some q t a h
        refine ⟨i + 1, Nat.succ_lt_succ hi, hget, hq, ?_⟩
        intro j hj
        match j with
        | 0 => simpa using hb
        | j + 1 => exact hmin j (Nat.lt_of_succ_lt_succ hj)

/-- C1: on every catalog and every availability assignment the resolver
returns the formatted descriptor of the first catalog entry, in catalog
order, whose availability flag is true, and returns the plain string
`decodebin` exactly when every flag is false; the fallback is an
ordinary return value, not an error. -/
theorem find_available_decoder_first (has_element : String → Bool)
    (c : List DecoderDef) (hc : c ∈ catalogs) :
    (∀ i, ∀ hi : i < c.length, has_element (c.get ⟨i, hi⟩).name = true →
      (∀ j, ∀ hj : j < i, has_element (c.get ⟨j, hj.trans hi⟩).name = false) →
      find_available_decoder has_element c = (c.get ⟨i, hi⟩).as_gst_element) ∧
    (find_available_decoder has_element c = "decodebin" ↔
      ∀ d ∈ c, has_element d.name = false) := by
  constructor
  · intro i hi hq hmin
    unfold find_available_decoder
    rw [find?_eq_some_of_first (fun d => has_element d.name) c i hi hq hmin]
  · constructor
    · intro h d hd
      cases hfind : c.find? (fun d => has_element d.name) with
      | none =>
          have := List.find?_eq_none.mp hfind d hd
          simpa using this
      | some d0 =>
          exfalso
          apply catalogs_no_decodebin c hc d0 (List.mem_of_find?_eq_some hfind)
          rw [← h]
          unfold find_available_decoder
          rw [hfind]
    · intro h
      unfold find_available_decoder
      rw [List.find?_eq_none.mpr fun d hd => by simp [h d hd]]

/-- Witness for C1: with only the second MJPEG entry present the
resolver picks it, and with an empty registry it returns the
fallback. -/
theorem find_available_decoder_first_witness :
    find_available_decoder (fun n => n == "avdec_mjpeg") MJPEG_DECODERS =
      (MJPEG_DECODERS.get ⟨1, by decide⟩).as_gst_element ∧
    find_available_decoder (fun _ => false) H265_DECODERS = "decodebin" :=
  ⟨(find_available_decoder_first (fun n => n == "avdec_mjpeg") MJPEG_DECODERS
      (by decide)).1 1 (by decide) (by decide) (by decide),
    (find_available_decoder_first (fun _ => false) H265_DECODERS (by decide)).2.mpr
      (by decide)⟩

/-- C6: populating the cache for a catalog yields one boolean per
catalog entry, entry `i` holding exactly the registry verdict on the
`i`-th decoder name; a repeated call on the populated cache returns the
identical vector and performs zero registry queries. -/
theorem get_cached_availability_spec (c : List DecoderDef) (has_element : String → Bool) :
    ((get_cached_availability c has_element none).1).length = c.length ∧
    (∀ i, ∀ hi : i < c.length,
      ((get_cached_availability c has_element none).1).getD i false =
        has_element (c.get ⟨i, hi⟩).name) ∧
    get_cached_availability c has_element (get_cached_availability c has_element none).2.1 =
      ((get_cached_availability c has_element none).1,
        (get_cached_availability c has_element none).2.1, 0) := by
  refine ⟨by simp [get_cached_availability, availability_of], ?_, rfl⟩
  intro i hi
  simp [get_cached_availability, availability_of, List.getD_eq_getElem?_getD,
    List.getElem?_map, List.getElem?_eq_getElem hi]

/-- Witness for C6 on the MJPEG catalog with a registry that has every
element. -/
theorem get_cached_availability_spec_witness :
    ((get_cached_availability MJPEG_DECODERS (fun _ => true) none).1).getD 0 false =
      (fun _ : String => true) ((MJPEG_DECODERS.get ⟨0, by decide⟩).name) :=
  (get_cached_availability_spec MJPEG_DECODERS (fun _ => true)).2.1 0 (by decide)

/-- C5 counterexample: one call of the resolver on the MJPEG catalog
against an empty registry performs five registry queries, not zero. The
resolver never reads the availability cache; it calls
`gstreamer::ElementFactory::find` anew for each scanned entry on every
invocation, refuting the claim that it does not query the external
registry anew on each call. -/
theorem find_available_decoder_requeries :
    find_available_decoder_queries (fun _ => false) MJPEG_DECODERS = 5 ∧
    0 < find_available_decoder_queries (fun _ => false) MJPEG_DECODERS := by decide

/-- The resolver agrees extensionally with selecting the first entry
whose flag in the freshly computed availability vector is true. -/
theorem find_eq_select (has_element : String → Bool) :
    ∀ c : List DecoderDef,
      find_available_decoder has_element c =
        select_by_flags c (availability_of c has_element)
  | [] => rfl
  | d :: t => by
      cases hd : has_element d.name with
      | true =>
          unfold find_available_decoder select_by_flags availability_of
          rw [List.map_cons, List.zip_cons_cons, List.find?_cons_of_pos _ (by simp [hd]),
            List.find?_cons_of_pos _ (by simpa using hd)]
      | false =>
          unfold find_available_decoder select_by_flags availability_of
          rw [List.map_cons, List.zip_cons_cons, List.find?_cons_of_neg _ (by simp [hd]),
            List.find?_cons_of_neg _ (by simpa using hd)]
          exact find_eq_select has_element t

/-- Every nonempty catalog forces at least one registry query per
resolver call. -/
theorem queries_pos (has_element : String → Bool) :
    ∀ c : List DecoderDef, c ≠ [] → 0 < find_available_decoder_queries has_element c
  | [], h => absurd rfl h
  | d :: t, _ => by
      unfold find_available_decoder_queries
      cases has_element d.name <;> simp

/-- C5 amended: because the registry is idempotent, the descriptor the
resolver returns coincides, for every codec catalog, with selecting the
first entry whose flag in the cached availability vector is true; but
the resolver computes it by querying the registry itself on every call
(at least one query per call), rather than reading the cache. -/
theorem find_available_decoder_vs_cache (has_element : String → Bool)
    (c : List DecoderDef) (hc : c ∈ catalogs) :
    find_available_decoder has_element c =
      select_by_flags c (get_cached_availability c has_element none).1 ∧
    0 < find_available_decoder_queries has_element c := by
  refine ⟨find_eq_select has_element c, queries_pos has_element c ?_⟩
  fin_cases hc <;> decide

/-- Witness for C5 (amended) on the H.265 catalog with an empty
registry. -/
theorem find_available_decoder_vs_cache_witness :
    find_available_decoder (fun _ => false) H265_DECODERS =
      select_by_flags H265_DECODERS
        (get_cached_availability H265_DECODERS (fun _ => false) none).1 ∧
    0 < find_available_decoder_queries (fun _ => false) H265_DECODERS :=
  find_available_decoder_vs_cache (fun _ => false) H265_DECODERS (by decide)

/-- Witness for C4: the H.264 chain has seven entries, and a missing
pixel format yields the empty chain. -/
theorem build_decoder_chain_length_names_witness :
    (build_decoder_chain (fun _ => false) (some "H264") none).length =
      H264_DECODERS.length ∧
    (build_decoder_chain (fun _ => false) none (some "jpegdec !")).length = 0 :=
  ⟨(build_decoder_chain_length_names (fun _ => false) none).2.1.1,
    (build_decoder_chain_length_names (fun _ => false) (some "jpegdec !")).2.2.2 none
      (by decide)⟩

/-- The status the chain builder assigns at position `i`. -/
theorem chain_getD (c : List DecoderDef) (availability : List Bool)
    (full_pipeline : Option String) (i : Nat) (hi : i < c.length) :
    (build_chain_from_defs c availability full_pipeline).getD i default =
      { name := (c.get ⟨i, hi⟩).name
        description := (c.get ⟨i, hi⟩).description
        state :=
          if active_decoder c full_pipeline = some (c.get ⟨i, hi⟩).name then
            FallbackState.Selected
          else if availability.getD i false then FallbackState.Available
          else FallbackState.Unavailable } := by
  have hlen : i < (build_chain_from_defs c availability full_pipeline).length := by
    rw [chain_length]; exact hi
  rw [List.getD_eq_getElem _ _ hlen]
  simp [build_chain_from_defs, List.getElem_enum, List.get_eq_getElem]

/-- The state field of the status at position `i`. -/
theorem chain_state_getD (c : List DecoderDef) (availability : List Bool)
    (full_pipeline : Option String) (i : Nat) (hi : i < c.length) :
    ((build_chain_from_defs c availability full_pipeline).getD i default).state =
      if active_decoder c full_pipeline = some (c.get ⟨i, hi⟩).name then
        FallbackState.Selected
      else if availability.getD i false then FallbackState.Available
      else FallbackState.Unavailable := by
  rw [chain_getD c availability full_pipeline i hi]

/-- The Boolean match tested by the chain builder coincides with the
delimited-occurrence wording of the spec. -/
theorem decoder_in_pipeline_iff (p : String) (d : DecoderDef) :
    decoder_in_pipeline p d = true ↔ occurs_delimited p d.name := by
  simp [decoder_in_pipeline, occurs_delimited, contains_substr, ends_with,
    Bool.or_eq_true, decide_eq_true_eq, or_assoc]

/-- A status drawn from the availability flag alone is Available exactly
when the flag is true and Unavailable exactly when it is false. -/
theorem state_avail_iff (b : Bool) :
    ((if b then FallbackState.Available else FallbackState.Unavailable) =
        FallbackState.Available ↔ b = true) ∧
    ((if b then FallbackState.Available else FallbackState.Unavailable) =
        FallbackState.Unavailable ↔ b = false) := by
  cases b <;> simp

/-- A status drawn from the availability flag alone is never
Selected. -/
theorem state_avail_ne_selected (b : Bool) :
    (if b then FallbackState.Available else FallbackState.Unavailable) ≠
      FallbackState.Selected := by
  cases b <;> simp

/-- With distinct catalog names, the active decoder equals the name at
position `i` exactly when `i` is the first position whose name occurs
delimited in the pipeline string. -/
theorem active_decoder_eq_iff (c : List DecoderDef)
    (hnodup : (c.map DecoderDef.name).Nodup) (p : String) (i : Nat) (hi : i < c.length) :
    active_decoder c (some p) = some (c.get ⟨i, hi⟩).name ↔ first_match c p i := by
  constructor
  · intro h
    replace h : (c.find? (decoder_in_pipeline p)).map (fun d => d.name) =
        some ((c.get ⟨i, hi⟩).name) := h
    rw [Option.map_eq_some'] at h
    obtain ⟨d0, hfind, hname⟩ := h
    obtain ⟨k, hk, hget, hq, hmin⟩ := first_of_find?_eq_some _ c d0 hfind
    have hki : k = i := by
      have h1 : (c.map DecoderDef.name).get ⟨k, by simpa using hk⟩ =
          (c.map DecoderDef.name).get ⟨i, by simpa using hi⟩ := by
        simp only [List.get_eq_getElem, List.getElem_map]
        rw [List.get_eq_getElem] at hget
        rw [List.get_eq_getElem] at hname
        rw [hget, hname]
      have h2 := (List.Nodup.get_inj_iff hnodup).mp h1
      simpa using h2
    subst hki
    refine ⟨hk, ?_, ?_⟩
    · rw [← decoder_in_pipeline_iff, hget]
      exact hq
    · intro j hj hocc
      have hb := (decoder_in_pipeline_iff p _).mpr hocc
      rw [hmin j hj] at hb
      exact Bool.false_ne_true hb
  · rintro ⟨hi2, hocc, hmin⟩
    show (c.find? (decoder_in_pipeline p)).map (fun d => d.name) = _
    rw [find?_eq_some_of_first (decoder_in_pipeline p) c i hi
      ((decoder_in_pipeline_iff p _).mpr hocc)
      (fun j hj => by
        cases hq : decoder_in_pipeline p (c.get ⟨j, hj.trans hi⟩) with
        | false => rfl
        | true => exact absurd ((decoder_in_pipeline_iff p _).mp hq) (hmin j hj))]
    rfl

/-- C2: for each catalog, availability vector and optional pipeline
descriptor, the entry at position `i` of the returned chain is Selected
exactly when a descriptor is supplied and `i` is the first catalog
position whose name occurs in it delimited by a following space, a
following exclamation character, or the end of the descriptor; when it
is not that active entry it is Available exactly when its index-aligned
availability flag is true and Unavailable exactly when it is false. -/
theorem build_chain_states (c : List DecoderDef) (hc : c ∈ catalogs)
    (availability : List Bool) (full_pipeline : Option String) (i : Nat)
    (hi : i < c.length) :
    (((build_chain_from_defs c availability full_pipeline).getD i default).state =
        FallbackState.Selected ↔
      ∃ p, full_pipeline = some p ∧ first_match c p i) ∧
    ((¬ ∃ p, full_pipeline = some p ∧ first_match c p i) →
      (((build_chain_from_defs c availability full_pipeline).getD i default).state =
          FallbackState.Available ↔ availability.getD i false = true) ∧
      (((build_chain_from_defs c availability full_pipeline).getD i default).state =
          FallbackState.Unavailable ↔ availability.getD i false = false)) := by
  have hnodup := catalogs_names_nodup c hc
  rw [chain_state_getD c availability full_pipeline i hi]
  rcases full_pipeline with _ | p
  · have hact : active_decoder c none = none := rfl
    rw [hact, if_neg (fun h => Option.noConfusion h)]
    constructor
    · constructor
      · intro h
        exact absurd h (state_avail_ne_selected _)
      · rintro ⟨p, hp, _⟩
        exact Option.noConfusion hp
    · intro _
      exact state_avail_iff (availability.getD i false)
  · by_cases hfm : first_match c p i
    · rw [if_pos ((active_decoder_eq_iff c hnodup p i hi).mpr hfm)]
      constructor
      · constructor
        · intro _
          exact ⟨p, rfl, hfm⟩
        · intro _
          rfl
      · intro hne
        exact absurd ⟨p, rfl, hfm⟩ hne
    · rw [if_neg (fun h => hfm ((active_decoder_eq_iff c hnodup p i hi).mp h))]
      constructor
      · constructor
        · intro h
          exact absurd h (state_avail_ne_selected _)
        · rintro ⟨p2, hp2, hfm2⟩
          obtain rfl : p2 = p := by injection hp2 with h2; exact h2.symm
          exact absurd hfm2 hfm
      · intro _
        exact state_avail_iff (availability.getD i false)

/-- Witness for C2: the first concrete scenario of the spec, where the
pipeline string contains `jpegdec` followed by a space, so position 0 of
the MJPEG chain is Selected. -/
theorem build_chain_states_witness :
    ((build_chain_from_defs MJPEG_DECODERS [true, true, false, false, false]
        (some "pipewiresrc ! jpegdec max-errors=-1 ! videoconvert")).getD 0
          default).state = FallbackState.Selected :=
  (build_chain_states MJPEG_DECODERS (by decide) [true, true, false, false, false]
      (some "pipewiresrc ! jpegdec max-errors=-1 ! videoconvert") 0 (by decide)).1.mpr
    ⟨"pipewiresrc ! jpegdec max-errors=-1 ! videoconvert", rfl,
      ⟨by decide, by decide, fun j hj => absurd hj (Nat.not_lt_zero j)⟩⟩

/-- With pairwise distinct catalog names, at most one entry carries a
given name. -/
theorem countP_name_le_one (n : String) :
    ∀ c : List DecoderDef, (c.map DecoderDef.name).Nodup →
      c.countP (fun d => decide (n = d.name)) ≤ 1
  | [], _ => by simp
  | d :: t, hnodup => by
      rw [List.map_cons, List.nodup_cons] at hnodup
      by_cases h : n = d.name
      · rw [List.countP_cons_of_pos _ _ (by simpa using h)]
        have hz : t.countP (fun d => decide (n = d.name)) = 0 := by
          rw [List.countP_eq_zero]
          intro d2 hd2
          simp only [decide_eq_true_eq]
          intro hn
          apply hnodup.1
          rw [← h, hn]
          exact List.mem_map_of_mem DecoderDef.name hd2
        rw [hz]
      · rw [List.countP_cons_of_neg _ _ (by simpa using h)]
        exact countP_name_le_one n t hnodup.2

/-- A status built from an active name matching no entry is never
Selected. -/
theorem state_ne_selected (act : Option String) (name2 : String) (b : Bool)
    (hne : act ≠ some name2) :
    (if act = some name2 then FallbackState.Selected
     else if b then FallbackState.Available else FallbackState.Unavailable) ≠
      FallbackState.Selected := by
  rw [if_neg hne]
  cases b <;> simp

/-- When the active name matches no catalog entry, no entry of the built
chain is Selected. -/
theorem countP_selected_zero (act : Option String) (availability : List Bool) :
    ∀ (c : List DecoderDef) (k : Nat), (∀ d ∈ c, act ≠ some d.name) →
      List.countP (fun s => s.state == FallbackState.Selected)
        ((c.enumFrom k).map fun p =>
          ({ name := p.2.name
             description := p.2.description
             state :=
               if act = some p.2.name then FallbackState.Selected
               else if availability.getD p.1 false then FallbackState.Available
               else FallbackState.Unavailable } : DecoderStatus)) = 0
  | [], _, _ => rfl
  | d :: t, k, hne => by
      simp only [List.enumFrom_cons, List.map_cons, List.countP_cons, beq_iff_eq]
      rw [if_neg (state_ne_selected act d.name (availability.getD k false)
        (hne d (List.mem_cons_self d t))), Nat.add_zero]
      exact countP_selected_zero act availability t (k + 1)
        fun d2 hd2 => hne d2 (List.mem_cons_of_mem d hd2)

/-- With pairwise distinct catalog names, the chain built from any
active name has at most one Selected entry. -/
theorem countP_selected_le_one (act : Option String) (availability : List Bool) :
    ∀ (c : List DecoderDef) (k : Nat), (c.map DecoderDef.name).Nodup →
      List.countP (fun s => s.state == FallbackState.Selected)
        ((c.enumFrom k).map fun p =>
          ({ name := p.2.name
             description := p.2.description
             state :=
               if act = some p.2.name then FallbackState.Selected
               else if availability.getD p.1 false then FallbackState.Available
               else FallbackState.Unavailable } : DecoderStatus)) ≤ 1
  | [], _, _ => Nat.zero_le 1
  | d :: t, k, hnodup => by
      rw [List.map_cons, List.nodup_cons] at hnodup
      simp only [List.enumFrom_cons, List.map_cons, List.countP_cons, beq_iff_eq]
      by_cases hact : act = some d.name
      · have hz := countP_selected_zero act availability t (k + 1)
          fun d2 hd2 heq => hnodup.1 (by
            have hnames : d.name = d2.name := by
              rw [hact] at heq
              injection heq
            rw [hnames]
            exact List.mem_map_of_mem DecoderDef.name hd2)
        rw [if_pos (by rw [if_pos hact]), hz]
      · rw [if_neg (state_ne_selected act d.name (availability.getD k false) hact),
          Nat.add_zero]
        exact countP_selected_le_one act availability t (k + 1) hnodup.2

/-- With pairwise distinct catalog names, the chain builder marks at
most one entry Selected. -/
theorem countP_selected (c : List DecoderDef) (availability : List Bool)
    (full_pipeline : Option String) (hnodup : (c.map DecoderDef.name).Nodup) :
    (build_chain_from_defs c availability full_pipeline).countP
        (fun s => s.state == FallbackState.Selected) ≤ 1 :=
  countP_selected_le_one (active_decoder c full_pipeline) availability c 0 hnodup

/-- C9: for every pixel format, registry and pair of optional arguments,
the chain returned by `build_decoder_chain` contains at most one entry
marked Selected: the active-entry search yields at most one name, and
the catalog names are pairwise distinct. -/
theorem build_decoder_chain_at_most_one_selected (has_element : String → Bool)
    (pixel_format full_pipeline : Option String) :
    (build_decoder_chain has_element pixel_format full_pipeline).countP
        (fun s => s.state == FallbackState.Selected) ≤ 1 := by
  by_cases h : pixel_format ∈ ([some "MJPG", some "MJPEG", some "H264", some "H265",
      some "HEVC"] : List (Option String))
  · simp only [List.mem_cons, List.not_mem_nil, or_false] at h
    rcases h with rfl | rfl | rfl | rfl | rfl
    · exact countP_selected MJPEG_DECODERS _ full_pipeline
        (catalogs_names_nodup MJPEG_DECODERS (by decide))
    · exact countP_selected MJPEG_DECODERS _ full_pipeline
        (catalogs_names_nodup MJPEG_DECODERS (by decide))
    · exact countP_selected H264_DECODERS _ full_pipeline
        (catalogs_names_nodup H264_DECODERS (by decide))
    · exact countP_selected H265_DECODERS _ full_pipeline
        (catalogs_names_nodup H265_DECODERS (by decide))
    · exact countP_selected H265_DECODERS _ full_pipeline
        (catalogs_names_nodup H265_DECODERS (by decide))
  · rw [build_decoder_chain_unrecognized has_element full_pipeline pixel_format h]
    simp

/-- C10: the chain builder reads the availability vector through a
guarded lookup defaulting to false, so it is total even when the vector
is shorter than the catalog: a position past the end of the vector is
never Available, and is Unavailable whenever it is not the active entry;
a vector produced by the availability computation always covers every
catalog position, so that default branch is unreachable then. -/
theorem build_chain_out_of_range (c : List DecoderDef) (availability : List Bool)
    (full_pipeline : Option String) (i : Nat) (hi : i < c.length)
    (hshort : availability.length ≤ i) :
    ((build_chain_from_defs c availability full_pipeline).getD i default).state ≠
        FallbackState.Available ∧
    (active_decoder c full_pipeline ≠ some (c.get ⟨i, hi⟩).name →
      ((build_chain_from_defs c availability full_pipeline).getD i default).state =
        FallbackState.Unavailable) ∧
    (∀ has_element : String → Bool, i < (availability_of c has_element).length) := by
  have hgetD : availability.getD i false = false := by
    rw [List.getD_eq_getElem?_getD, List.getElem?_eq_none hshort]
    rfl
  rw [chain_state_getD c availability full_pipeline i hi, hgetD]
  refine ⟨?_, ?_, ?_⟩
  · by_cases ha : active_decoder c full_pipeline = some (c.get ⟨i, hi⟩).name
    · rw [if_pos ha]
      decide
    · rw [if_neg ha, if_neg (by decide)]
      decide
  · intro hne
    rw [if_neg hne, if_neg (by decide)]
  · intro has_element
    simpa [availability_of] using hi

/-- Witness for C10: the MJPEG catalog against an empty availability
vector and no pipeline string reports position 0 Unavailable. -/
theorem build_chain_out_of_range_witness :
    ((build_chain_from_defs MJPEG_DECODERS [] none).getD 0 default).state =
      FallbackState.Unavailable :=
  (build_chain_out_of_range MJPEG_DECODERS [] none 0 (by decide) (by decide)).2.1
    (by decide)

end Camera
